import Mathlib

/-!
Shallow embedding of the upa repository's maintenance tools and proofs about
them.  The embedding covers:

* tools/extract-cpp.py — the Markdown C++ example extractor (a line scanner
  that recognises fenced cpp regions and either writes standalone example
  files or aggregates fragments into one generated program);
* tools/update-docs-versions.py — maintenance of the sorted versions.txt
  index (update_ver and key_of_dir_ver).

Documents are modelled as lists of lines without their terminating newline;
the scanner re-attaches a newline where the script uses the raw line.
File output is modelled as the list of (file name, file content) pairs in
creation order; the output directory prefix that os.path.join adds is the
same for every file and is elided.  Console printing is not modelled.
-/

namespace ExtractCpp

/-- Ascii whitespace characters stripped by Python's str.rstrip(). -/
def isPyWs (c : Char) : Bool :=
  c == ' ' || c == '\t' || c == '\n' || c == '\r' || c == '\x0b' || c == '\x0c'

/-- Python line_nl.rstrip(): remove all trailing whitespace. -/
def rstrip (s : String) : String :=
  String.mk ((s.data.reverse.dropWhile isPyWs).reverse)

/-- INDENT_TEXT constant of extract-cpp.py. -/
def INDENT_TEXT : String := "    "

/-- COMMON_CPP_HEADER constant of extract-cpp.py (the Python triple-quoted
string starts and ends with a newline). -/
def COMMON_CPP_HEADER : String :=
  "\n#include \"upa/url.h\"\n#include <iostream>\n#include <string>\n"

/-- Whether the first list is an initial segment of the second. -/
def listIsPfx : List Char → List Char → Bool
  | [], _ => true
  | _ :: _, [] => false
  | p :: ps, c :: cs => p == c && listIsPfx ps cs

/-- Python s.startswith(pre). -/
def startswith (s pre : String) : Bool := listIsPfx pre.data s.data

/-- Whether pat occurs as a contiguous run inside the second list. -/
def hasSub (pat : List Char) : List Char → Bool
  | [] => listIsPfx pat []
  | c :: cs => listIsPfx pat (c :: cs) || hasSub pat cs

/-- has_main of extract-cpp.py: the Python test "int main(" in cpp_text. -/
def has_main (cpp_text : String) : Bool :=
  hasSub "int main(".data cpp_text.data

/-- The scanner states of CppExamples.State. -/
inductive State where
  | Outside
  | EnterCpp
  | InCpp
  | InCppSnipet
  deriving DecidableEq, Repr

/-- The mutable data of one CppExamples instance together with the per-file
locals state and cpp_text of extract_cpp_from_md_file, plus the list of
files written so far (name, content). -/
structure ScanSt where
  state : State
  cppText : String
  fileNum : Nat
  exampleNum : Nat
  examplesText : String
  files : List (String × String)
  deriving DecidableEq, Repr

/-- Name of the n-th standalone example file. -/
def exampleFileName (n : Nat) : String := "example-" ++ toString n ++ ".cpp"

/-- The text appended to _cpp_examples_text for one fragment region
(lines 58-61 of extract-cpp.py). -/
def fragBlock (mdPath : String) (n : Nat) (body : String) : String :=
  "\n// Example from: " ++ mdPath ++ "\nvoid example_" ++ toString n ++
    "() \x7b\n" ++ body ++ "\x7d\n"

/-- One iteration of the line loop of extract_cpp_from_md_file. -/
def step (mdPath : String) (c : ScanSt) (raw : String) : ScanSt :=
  let line := rstrip raw
  let lineNl := raw ++ "\n"
  match c.state with
  | State.Outside =>
      if line = "```cpp" then { c with state := State.EnterCpp, cppText := "" }
      else c
  | State.EnterCpp =>
      if line = "```" then { c with state := State.Outside }
      else
        let st := if startswith line "#include" then State.InCpp
                  else State.InCppSnipet
        let pre := if st = State.InCppSnipet then INDENT_TEXT else ""
        { c with state := st, cppText := c.cppText ++ pre ++ lineNl }
  | State.InCpp =>
      if line = "```" then
        if has_main c.cppText then
          { c with state := State.Outside,
                   fileNum := c.fileNum + 1,
                   files := c.files ++
                     [(exampleFileName (c.fileNum + 1),
                       "// Example from: " ++ mdPath ++ "\n" ++ c.cppText)] }
        else { c with state := State.Outside }
      else { c with cppText := c.cppText ++ lineNl }
  | State.InCppSnipet =>
      if line = "```" then
        { c with state := State.Outside,
                 exampleNum := c.exampleNum + 1,
                 examplesText := c.examplesText ++
                   fragBlock mdPath (c.exampleNum + 1) c.cppText }
      else { c with cppText := c.cppText ++ INDENT_TEXT ++ lineNl }

/-- Concatenation of the strings produced from a list, used to describe
accumulated text. -/
def catMap (f : α → String) : List α → String
  | [] => ""
  | x :: xs => f x ++ catMap f xs

/-- The text a standalone region's lines contribute to cpp_text. -/
def textOf (r : List String) : String := catMap (fun l => l ++ "\n") r

/-- The text a fragment region's lines contribute to cpp_text. -/
def fragText (r : List String) : String :=
  catMap (fun l => INDENT_TEXT ++ l ++ "\n") r

/-- The generated entry point appended by output_common_cpp
(lines 73-77 of extract-cpp.py). -/
def mainBlock (n : Nat) : String :=
  "\nint main() \x7b\n" ++
    catMap (fun i => INDENT_TEXT ++ "example_" ++ toString (i + 1) ++ "();\n")
      (List.range n) ++
    INDENT_TEXT ++ "return 0;\n\x7d\n"

/-- extract_cpp_from_md_file: reset the per-file locals, then run the line
loop over the document. -/
def extract_cpp_from_md_file (c : ScanSt) (mdPath : String)
    (lines : List String) : ScanSt :=
  lines.foldl (step mdPath) { c with state := State.Outside, cppText := "" }

/-- output_common_cpp: emit examples.cpp when at least one fragment was
recorded.  Returns the final list of written files. -/
def output_common_cpp (c : ScanSt) : List (String × String) :=
  if 0 < c.exampleNum then
    c.files ++ [("examples.cpp", c.examplesText ++ mainBlock c.exampleNum)]
  else c.files

/-- The state built by CppExamples.__init__. -/
def initSt : ScanSt :=
  { state := State.Outside, cppText := "", fileNum := 0, exampleNum := 0,
    examplesText := COMMON_CPP_HEADER, files := [] }

/-- State after the main loop processed all documents (path, lines). -/
def finalSt (docs : List (String × List String)) : ScanSt :=
  docs.foldl (fun c d => extract_cpp_from_md_file c d.1 d.2) initSt

/-- A whole run of extract-cpp.py: process every document, then
output_common_cpp.  Result: all files written, in creation order. -/
def runExtract (docs : List (String × List String)) : List (String × String) :=
  output_common_cpp (finalSt docs)

/-- The aggregate buffer always consists of the fixed header followed by
one generated block per recorded fragment, numbered 1, 2, ... in order:
block i + 1 is fragBlock applied to some source path and body. -/
def fragsOk (c : ScanSt) : Prop :=
  ∃ g : Nat → String × String,
    c.examplesText
      = COMMON_CPP_HEADER
        ++ catMap (fun i => fragBlock (g i).1 (i + 1) (g i).2)
            (List.range c.exampleNum)

end ExtractCpp

namespace DocsVersions

/-- Python s.split(sep) on character lists: split at every separator, empty
input gives one empty piece, never returns an empty list of pieces. -/
def splitOnChar (sep : Char) : List Char → List (List Char)
  | [] => [[]]
  | c :: cs =>
      if c = sep then [] :: splitOnChar sep cs
      else
        match splitOnChar sep cs with
        | [] => [[c]]
        | h :: t => (c :: h) :: t

/-- Value of a nonempty all-digit character list. -/
def digitsVal (l : List Char) : Option Int :=
  if l ≠ [] ∧ l.all Char.isDigit then
    some (l.foldl (fun a c => 10 * a + ((c.toNat : Int) - 48)) 0)
  else none

/-- Python int() on the sign-and-digits forms this tool meets; the
whitespace and underscore forms accepted by int() are not modelled.
none models the ValueError exception. -/
def parseIntPy : List Char → Option Int
  | '-' :: rest => (digitsVal rest).map (fun n => -n)
  | '+' :: rest => digitsVal rest
  | l => digitsVal l

/-- dir_ver.split(":")[0]: the text before the first colon. -/
def dirPart (s : String) : String :=
  String.mk (s.data.takeWhile (fun c => c != ':'))

/-- The pieces read by key_of_dir_ver from a dir string: strip one leading
"v", split on ".", parse up to three integer pieces (missing pieces count
as 0, later pieces are ignored); none models an int() exception. -/
def trip_of_dir (dir : String) : Option (Int × Int × Int) :=
  let base := match dir.data with
    | 'v' :: rest => rest
    | l => l
  let pieces := splitOnChar '.' base
  match parseIntPy pieces.headI with
  | none => none
  | some p0 =>
      match (if h : 1 < pieces.length
             then parseIntPy (pieces.get ⟨1, h⟩) else some 0) with
      | none => none
      | some p1 =>
          match (if h : 2 < pieces.length
                 then parseIntPy (pieces.get ⟨2, h⟩) else some 0) with
          | none => none
          | some p2 => some (p0, p1, p2)

/-- The weighted sum div = 1000000*major + 1000*minor + patch of
key_of_dir_ver. -/
def divOf (t : Int × Int × Int) : Int :=
  1000000 * t.1 + 1000 * t.2.1 + t.2.2

/-- key_of_dir_ver of update-docs-versions.py: 0 for the "main" entry,
otherwise the reciprocal 1 / div.  Python's float division is modelled as
the exact rational; none models the int() and division-by-zero
exceptions, which abort the run. -/
def key_of_dir_ver (dir_ver : String) : Option ℚ :=
  if dirPart dir_ver = "main" then some 0
  else
    match trip_of_dir (dirPart dir_ver) with
    | none => none
    | some t => if divOf t = 0 then none else some (1 / ((divOf t : Int) : ℚ))

/-- Total form of the key used inside the sort comparator; it is only
consulted on lines whose key is defined. -/
def keyD (s : String) : ℚ := (key_of_dir_ver s).getD 0

/-- The triple parsed from a whole line. -/
def tripOfLine (s : String) : Option (Int × Int × Int) :=
  trip_of_dir (dirPart s)

/-- The div value parsed from a whole line (0 when parsing fails). -/
def divD (s : String) : Int := divOf ((tripOfLine s).getD (0, 0, 0))

/-- Stable ascending insertion: the new element goes after every element
whose key is less or equal. -/
def insertAsc (key : String → ℚ) (x : String) : List String → List String
  | [] => [x]
  | y :: ys =>
      if key y ≤ key x then y :: insertAsc key x ys
      else x :: y :: ys

/-- Python's lines.sort(key=...): a stable ascending sort.  A stable sort
over a total preorder has a unique result, so stable insertion sort gives
exactly the list Python produces. -/
def sortByKey (key : String → ℚ) (l : List String) : List String :=
  l.foldl (fun acc x => insertAsc key x acc) []

/-- The replace-first-matching-dir-or-append loop of update_ver. -/
def replaceOrAppend (dir dv : String) : List String → List String
  | [] => [dv]
  | l :: ls =>
      if dirPart l = dir then dv :: ls
      else l :: replaceOrAppend dir dv ls

/-- update_ver of update-docs-versions.py as a function from the current
lines of versions.txt to the lines written back; none models an uncaught
exception inside the sort key (the run aborts before writing). -/
def update_ver (dir ver : String) (lines : List String) :
    Option (List String) :=
  let dir_ver := if dir = ver then dir else dir ++ ":" ++ ver
  let lines1 := replaceOrAppend dir dir_ver lines
  if lines1.all (fun l => (key_of_dir_ver l).isSome) then
    some (sortByKey keyD lines1)
  else none

/-- Strict lexicographic order on version triples: the ordinary
major.minor.patch comparison. -/
def lexLt (a b : Int × Int × Int) : Prop :=
  a.1 < b.1
  ∨ (a.1 = b.1 ∧ (a.2.1 < b.2.1 ∨ (a.2.1 = b.2.1 ∧ a.2.2 < b.2.2)))

instance (a b : Int × Int × Int) : Decidable (lexLt a b) := by
  unfold lexLt
  infer_instance

/-- Canonical released-version components: nonnegative, minor and patch
below their weights, positive weighted sum. -/
def goodTrip (t : Int × Int × Int) : Prop :=
  0 ≤ t.1 ∧ 0 ≤ t.2.1 ∧ t.2.1 < 1000 ∧ 0 ≤ t.2.2 ∧ t.2.2 < 1000
    ∧ 0 < divOf t

/-- The predicate the replace loop tests: the part before the first colon
equals the requested dir. -/
def matchesDir (dir : String) : String → Bool :=
  fun s => decide (dirPart s = dir)

end DocsVersions

namespace ExtractCpp

/-! Step-level lemmas: how one line moves the scanner. -/

theorem step_outside_skip (p : String) (c : ScanSt) (raw : String)
    (hc : c.state = State.Outside) (h : rstrip raw ≠ "```cpp") :
    step p c raw = c := by
  simp [step, hc, h]

theorem step_open (p : String) (c : ScanSt) (raw : String)
    (hc : c.state = State.Outside) (h : rstrip raw = "```cpp") :
    step p c raw = { c with state := State.EnterCpp, cppText := "" } := by
  simp [step, hc, h]

theorem step_close_enter (p : String) (c : ScanSt) (raw : String)
    (hc : c.state = State.EnterCpp) (h : rstrip raw = "```") :
    step p c raw = { c with state := State.Outside } := by
  simp [step, hc, h]

theorem step_enter_inc (p : String) (c : ScanSt) (raw : String)
    (hc : c.state = State.EnterCpp) (h : rstrip raw ≠ "```")
    (hinc : startswith (rstrip raw) "#include" = true) :
    step p c raw
      = { c with state := State.InCpp, cppText := c.cppText ++ (raw ++ "\n") } := by
  simp [step, hc, h, hinc]

theorem step_enter_frag (p : String) (c : ScanSt) (raw : String)
    (hc : c.state = State.EnterCpp) (h : rstrip raw ≠ "```")
    (hinc : startswith (rstrip raw) "#include" = false) :
    step p c raw
      = { c with state := State.InCppSnipet,
                 cppText := c.cppText ++ INDENT_TEXT ++ (raw ++ "\n") } := by
  simp [step, hc, h, hinc]

theorem step_inCpp_content (p : String) (c : ScanSt) (raw : String)
    (hc : c.state = State.InCpp) (h : rstrip raw ≠ "```") :
    step p c raw = { c with cppText := c.cppText ++ (raw ++ "\n") } := by
  simp [step, hc, h]

theorem step_close_inCpp_main (p : String) (c : ScanSt) (raw : String)
    (hc : c.state = State.InCpp) (h : rstrip raw = "```")
    (hm : has_main c.cppText = true) :
    step p c raw
      = { c with state := State.Outside,
                 fileNum := c.fileNum + 1,
                 files := c.files ++
                   [(exampleFileName (c.fileNum + 1),
                     "// Example from: " ++ p ++ "\n" ++ c.cppText)] } := by
  simp [step, hc, h, hm]

theorem step_close_inCpp_nomain (p : String) (c : ScanSt) (raw : String)
    (hc : c.state = State.InCpp) (h : rstrip raw = "```")
    (hm : has_main c.cppText = false) :
    step p c raw = { c with state := State.Outside } := by
  simp [step, hc, h, hm]

theorem step_snipet_content (p : String) (c : ScanSt) (raw : String)
    (hc : c.state = State.InCppSnipet) (h : rstrip raw ≠ "```") :
    step p c raw
      = { c with cppText := c.cppText ++ INDENT_TEXT ++ (raw ++ "\n") } := by
  simp [step, hc, h]

theorem step_close_snipet (p : String) (c : ScanSt) (raw : String)
    (hc : c.state = State.InCppSnipet) (h : rstrip raw = "```") :
    step p c raw
      = { c with state := State.Outside,
                 exampleNum := c.exampleNum + 1,
                 examplesText := c.examplesText ++
                   fragBlock p (c.exampleNum + 1) c.cppText } := by
  simp [step, hc, h]

/-! Runs of the scanner over several lines. -/

theorem foldl_outside (p : String) (ls : List String) :
    ∀ c : ScanSt, c.state = State.Outside →
      (∀ l ∈ ls, rstrip l ≠ "```cpp") → ls.foldl (step p) c = c := by
  induction ls with
  | nil => intro c _ _; rfl
  | cons a rest ih =>
      intro c hc hall
      rw [List.foldl_cons, step_outside_skip p c a hc (hall a (by simp))]
      exact ih c hc (fun l hl => hall l (by simp [hl]))

theorem foldl_inCpp (p : String) (ls : List String) :
    ∀ c : ScanSt, c.state = State.InCpp →
      (∀ l ∈ ls, rstrip l ≠ "```") →
      ls.foldl (step p) c = { c with cppText := c.cppText ++ textOf ls } := by
  induction ls with
  | nil => intro c _ _; simp [textOf, catMap]
  | cons a rest ih =>
      intro c hc hall
      rw [List.foldl_cons, step_inCpp_content p c a hc (hall a (by simp))]
      rw [ih { c with cppText := c.cppText ++ (a ++ "\n") } hc
        (fun l hl => hall l (by simp [hl]))]
      simp [textOf, catMap, String.append_assoc]

theorem foldl_inSnipet (p : String) (ls : List String) :
    ∀ c : ScanSt, c.state = State.InCppSnipet →
      (∀ l ∈ ls, rstrip l ≠ "```") →
      ls.foldl (step p) c = { c with cppText := c.cppText ++ fragText ls } := by
  induction ls with
  | nil => intro c _ _; simp [fragText, catMap]
  | cons a rest ih =>
      intro c hc hall
      rw [List.foldl_cons, step_snipet_content p c a hc (hall a (by simp))]
      rw [ih { c with cppText := c.cppText ++ INDENT_TEXT ++ (a ++ "\n") } hc
        (fun l hl => hall l (by simp [hl]))]
      simp [fragText, catMap, String.append_assoc]

theorem region_standalone (p : String) (r : List String) (c : ScanSt)
    (hc : c.state = State.EnterCpp) (hne : r ≠ [])
    (hall : ∀ l ∈ r, rstrip l ≠ "```")
    (hinc : startswith (rstrip r.headI) "#include" = true) :
    r.foldl (step p) c
      = { c with state := State.InCpp, cppText := c.cppText ++ textOf r } := by
  match r, hne with
  | a :: rest, _ =>
      simp only [List.headI] at hinc
      rw [List.foldl_cons,
        step_enter_inc p c a hc (hall a (by simp)) hinc,
        foldl_inCpp p rest _ rfl (fun l hl => hall l (by simp [hl]))]
      simp [textOf, catMap, String.append_assoc]

theorem region_fragment (p : String) (r : List String) (c : ScanSt)
    (hc : c.state = State.EnterCpp) (hne : r ≠ [])
    (hall : ∀ l ∈ r, rstrip l ≠ "```")
    (hinc : startswith (rstrip r.headI) "#include" = false) :
    r.foldl (step p) c
      = { c with state := State.InCppSnipet,
                 cppText := c.cppText ++ fragText r } := by
  match r, hne with
  | a :: rest, _ =>
      simp only [List.headI] at hinc
      rw [List.foldl_cons,
        step_enter_frag p c a hc (hall a (by simp)) hinc,
        foldl_inSnipet p rest _ rfl (fun l hl => hall l (by simp [hl]))]
      simp [fragText, catMap, String.append_assoc]

/-! Whole fenced blocks, fences included. -/

theorem block_standalone_main (p : String) (r : List String) (c : ScanSt)
    (hc : c.state = State.Outside) (hne : r ≠ [])
    (hall : ∀ l ∈ r, rstrip l ≠ "```")
    (hinc : startswith (rstrip r.headI) "#include" = true)
    (hm : has_main (textOf r) = true) :
    ("```cpp" :: (r ++ ["```"])).foldl (step p) c
      = { c with state := State.Outside, cppText := textOf r,
                 fileNum := c.fileNum + 1,
                 files := c.files ++
                   [(exampleFileName (c.fileNum + 1),
                     "// Example from: " ++ p ++ "\n" ++ textOf r)] } := by
  rw [List.foldl_cons, step_open p c "```cpp" hc (by decide)]
  rw [List.foldl_append, region_standalone p r _ rfl hne hall hinc]
  rw [List.foldl_cons, step_close_inCpp_main p _ "```" rfl (by decide)
    (by simpa using hm)]
  simp

theorem block_standalone_nomain (p : String) (r : List String) (c : ScanSt)
    (hc : c.state = State.Outside) (hne : r ≠ [])
    (hall : ∀ l ∈ r, rstrip l ≠ "```")
    (hinc : startswith (rstrip r.headI) "#include" = true)
    (hm : has_main (textOf r) = false) :
    ("```cpp" :: (r ++ ["```"])).foldl (step p) c
      = { c with state := State.Outside, cppText := textOf r } := by
  rw [List.foldl_cons, step_open p c "```cpp" hc (by decide)]
  rw [List.foldl_append, region_standalone p r _ rfl hne hall hinc]
  rw [List.foldl_cons, step_close_inCpp_nomain p _ "```" rfl (by decide)
    (by simpa using hm)]
  simp

theorem block_fragment (p : String) (r : List String) (c : ScanSt)
    (hc : c.state = State.Outside) (hne : r ≠ [])
    (hall : ∀ l ∈ r, rstrip l ≠ "```")
    (hinc : startswith (rstrip r.headI) "#include" = false) :
    ("```cpp" :: (r ++ ["```"])).foldl (step p) c
      = { c with state := State.Outside, cppText := fragText r,
                 exampleNum := c.exampleNum + 1,
                 examplesText := c.examplesText ++
                   fragBlock p (c.exampleNum + 1) (fragText r) } := by
  rw [List.foldl_cons, step_open p c "```cpp" hc (by decide)]
  rw [List.foldl_append, region_fragment p r _ rfl hne hall hinc]
  rw [List.foldl_cons, step_close_snipet p _ "```" rfl (by decide)]
  simp

/-- Claim C1: inside a fenced cpp region the Standalone/Fragment
classification is decided solely by the first line after the fence — the
scanner is in InCpp after every prefix of the region when that first line
starts with "#include", and in InCppSnipet after every prefix otherwise,
whatever the later lines contain. -/
theorem classification_decided_by_first_line (p : String) (c : ScanSt)
    (r : List String) (n : Nat) (hc : c.state = State.EnterCpp) (hne : r ≠ [])
    (hall : ∀ l ∈ r, rstrip l ≠ "```") (hn : n < r.length) :
    ((r.take (n + 1)).foldl (step p) c).state
      = (if startswith (rstrip r.headI) "#include" then State.InCpp
         else State.InCppSnipet) := by
  match r, hne with
  | a :: rest, _ =>
      simp only [List.headI, List.take_succ_cons, List.foldl_cons]
      have hrest : ∀ l ∈ rest.take n, rstrip l ≠ "```" := fun l hl =>
        hall l (List.mem_cons_of_mem a (List.take_subset n rest hl))
      by_cases hsw : startswith (rstrip a) "#include" = true
      · rw [if_pos hsw, step_enter_inc p c a hc (hall a (by simp)) hsw,
          foldl_inCpp p (rest.take n) _ rfl hrest]
      · rw [if_neg hsw, step_enter_frag p c a hc (hall a (by simp))
          (by simpa using hsw), foldl_inSnipet p (rest.take n) _ rfl hrest]

/-- Witness for C1 at a concrete region. -/
theorem classification_decided_by_first_line_w :
    (((["#include x", "int y;"] : List String).take 2).foldl (step "d")
        { initSt with state := State.EnterCpp }).state
      = (if startswith (rstrip (["#include x", "int y;"] : List String).headI)
            "#include" then State.InCpp else State.InCppSnipet) :=
  classification_decided_by_first_line "d" _ _ 1 rfl (by decide) (by decide)
    (by decide)

/-- Claim C7 counterexample: the line "```cpp " (trailing blank), which is
not equal to the open-fence token, still opens a region, because the code
compares line_nl.rstrip() with the token. -/
theorem fence_token_exact_cex :
    (step "d.md" initSt "```cpp ").state = State.EnterCpp ∧
      ("```cpp " : String) ≠ "```cpp" := by decide

/-- Claim C7 amended: fence transitions are decided on the line after
rstrip: while Outside the scanner enters a region exactly when the
rstripped line equals "```cpp", and while inside it returns to Outside
exactly when the rstripped line equals "```". -/
theorem fence_recognition_rstrip (p : String) (c : ScanSt) (raw : String) :
    (c.state = State.Outside →
      ((step p c raw).state ≠ State.Outside ↔ rstrip raw = "```cpp"))
    ∧ (c.state ≠ State.Outside →
      ((step p c raw).state = State.Outside ↔ rstrip raw = "```")) := by
  constructor
  · intro hc
    by_cases h : rstrip raw = "```cpp"
    · rw [step_open p c raw hc h]
      simp [h]
    · rw [step_outside_skip p c raw hc h]
      simp [hc, h]
  · intro hc
    cases hst : c.state with
    | Outside => exact absurd hst hc
    | EnterCpp =>
        by_cases h : rstrip raw = "```"
        · rw [step_close_enter p c raw hst h]
          simp [h]
        · cases hsw : startswith (rstrip raw) "#include"
          · rw [step_enter_frag p c raw hst h hsw]
            simp [h]
          · rw [step_enter_inc p c raw hst h hsw]
            simp [h]
    | InCpp =>
        by_cases h : rstrip raw = "```"
        · cases hm : has_main c.cppText
          · rw [step_close_inCpp_nomain p c raw hst h hm]
            simp [h]
          · rw [step_close_inCpp_main p c raw hst h hm]
            simp [h]
        · rw [step_inCpp_content p c raw hst h]
          simp [hst, h]
    | InCppSnipet =>
        by_cases h : rstrip raw = "```"
        · rw [step_close_snipet p c raw hst h]
          simp [h]
        · rw [step_snipet_content p c raw hst h]
          simp [hst, h]

/-- Witness for the amended C7 at concrete lines. -/
theorem fence_recognition_rstrip_w :
    ((step "d" initSt "```cpp").state ≠ State.Outside
      ↔ rstrip "```cpp" = "```cpp")
    ∧ ((step "d" { initSt with state := State.EnterCpp } "```").state
        = State.Outside ↔ rstrip "```" = "```") :=
  ⟨(fence_recognition_rstrip "d" initSt "```cpp").1 rfl,
   (fence_recognition_rstrip "d" { initSt with state := State.EnterCpp }
      "```").2 (by decide)⟩

/-- Claim C9: an empty fenced region (close fence immediately after the
open fence) writes nothing, records no fragment, leaves both counters and
the aggregate buffer unchanged and returns to Outside. -/
theorem empty_region_is_noop (p : String) (c : ScanSt)
    (hc : c.state = State.Outside) :
    ((["```cpp", "```"] : List String).foldl (step p) c).files = c.files
    ∧ ((["```cpp", "```"] : List String).foldl (step p) c).fileNum = c.fileNum
    ∧ ((["```cpp", "```"] : List String).foldl (step p) c).exampleNum
        = c.exampleNum
    ∧ ((["```cpp", "```"] : List String).foldl (step p) c).examplesText
        = c.examplesText
    ∧ ((["```cpp", "```"] : List String).foldl (step p) c).state
        = State.Outside := by
  simp only [List.foldl_cons, List.foldl_nil]
  rw [step_open p c "```cpp" hc (by decide)]
  rw [step_close_enter p _ "```" rfl (by decide)]
  exact ⟨rfl, rfl, rfl, rfl, rfl⟩

/-- Witness for C9 at the initial state. -/
theorem empty_region_is_noop_w :
    ((["```cpp", "```"] : List String).foldl (step "d") initSt).files
        = initSt.files
    ∧ ((["```cpp", "```"] : List String).foldl (step "d") initSt).fileNum
        = initSt.fileNum
    ∧ ((["```cpp", "```"] : List String).foldl (step "d") initSt).exampleNum
        = initSt.exampleNum
    ∧ ((["```cpp", "```"] : List String).foldl (step "d") initSt).examplesText
        = initSt.examplesText
    ∧ ((["```cpp", "```"] : List String).foldl (step "d") initSt).state
        = State.Outside :=
  empty_region_is_noop "d" initSt rfl

/-- Claim C4: a Standalone-classified region whose buffered text has no
"int main(" marker is dropped silently: no file is written and the file
counter, fragment counter and aggregate buffer are unchanged; the scanner
returns to Outside.  (The model is a total function, so no error can be
raised; the script prints nothing on this path.) -/
theorem standalone_without_main_skipped (p : String) (r : List String)
    (c : ScanSt) (hc : c.state = State.Outside) (hne : r ≠ [])
    (hall : ∀ l ∈ r, rstrip l ≠ "```")
    (hinc : startswith (rstrip r.headI) "#include" = true)
    (hm : has_main (textOf r) = false) :
    (("```cpp" :: (r ++ ["```"])).foldl (step p) c).files = c.files
    ∧ (("```cpp" :: (r ++ ["```"])).foldl (step p) c).fileNum = c.fileNum
    ∧ (("```cpp" :: (r ++ ["```"])).foldl (step p) c).exampleNum = c.exampleNum
    ∧ (("```cpp" :: (r ++ ["```"])).foldl (step p) c).examplesText
        = c.examplesText
    ∧ (("```cpp" :: (r ++ ["```"])).foldl (step p) c).state = State.Outside := by
  rw [block_standalone_nomain p r c hc hne hall hinc hm]
  exact ⟨rfl, rfl, rfl, rfl, rfl⟩

/-- Witness for C4: an include-only snippet is skipped. -/
theorem standalone_without_main_skipped_w :
    (("```cpp" :: ((["#include <a>"] : List String) ++ ["```"])).foldl
        (step "d") initSt).files = initSt.files
    ∧ (("```cpp" :: ((["#include <a>"] : List String) ++ ["```"])).foldl
        (step "d") initSt).fileNum = initSt.fileNum
    ∧ (("```cpp" :: ((["#include <a>"] : List String) ++ ["```"])).foldl
        (step "d") initSt).exampleNum = initSt.exampleNum
    ∧ (("```cpp" :: ((["#include <a>"] : List String) ++ ["```"])).foldl
        (step "d") initSt).examplesText = initSt.examplesText
    ∧ (("```cpp" :: ((["#include <a>"] : List String) ++ ["```"])).foldl
        (step "d") initSt).state = State.Outside :=
  standalone_without_main_skipped "d" ["#include <a>"] initSt rfl (by decide)
    (by decide) (by decide) (by decide)

/-! Spelled-out values of the generated text blocks. -/

theorem fragBlock_one (q b : String) :
    fragBlock q 1 b
      = "\n// Example from: " ++ q ++ "\nvoid example_1() \x7b\n" ++ b
          ++ "\x7d\n" := by
  have h1 : ∀ s : String,
      ((s ++ "\nvoid example_") ++ toString (1 : Nat)) ++ "() \x7b\n"
        = s ++ "\nvoid example_1() \x7b\n" := by
    intro s
    rw [String.append_assoc, String.append_assoc]
    exact congrArg (fun t => s ++ t) (by decide)
  unfold fragBlock
  rw [h1]

theorem fragBlock_two (q b : String) :
    fragBlock q 2 b
      = "\n// Example from: " ++ q ++ "\nvoid example_2() \x7b\n" ++ b
          ++ "\x7d\n" := by
  have h1 : ∀ s : String,
      ((s ++ "\nvoid example_") ++ toString (2 : Nat)) ++ "() \x7b\n"
        = s ++ "\nvoid example_2() \x7b\n" := by
    intro s
    rw [String.append_assoc, String.append_assoc]
    exact congrArg (fun t => s ++ t) (by decide)
  unfold fragBlock
  rw [h1]

theorem mainBlock_two :
    mainBlock 2
      = "\nint main() \x7b\n    example_1();\n    example_2();\n"
          ++ "    return 0;\n\x7d\n" := by decide

/-- Claim C2: a document holding exactly one fenced cpp region, classified
Standalone and containing "int main(", yields exactly one output file
example-1.cpp whose content is the provenance line followed by the region's
lines verbatim, unindented and without the fence lines. -/
theorem standalone_with_main_single_file (p : String) (pre r post : List String)
    (hpre : ∀ l ∈ pre, rstrip l ≠ "```cpp")
    (hpost : ∀ l ∈ post, rstrip l ≠ "```cpp")
    (hne : r ≠ []) (hall : ∀ l ∈ r, rstrip l ≠ "```")
    (hinc : startswith (rstrip r.headI) "#include" = true)
    (hm : has_main (textOf r) = true) :
    runExtract [(p, pre ++ ("```cpp" :: (r ++ ["```"])) ++ post)]
      = [("example-1.cpp", "// Example from: " ++ p ++ "\n" ++ textOf r)] := by
  unfold runExtract finalSt
  simp only [List.foldl_cons, List.foldl_nil]
  show output_common_cpp (List.foldl (step p) initSt
      (pre ++ ("```cpp" :: (r ++ ["```"])) ++ post)) = _
  rw [List.foldl_append, List.foldl_append,
    foldl_outside p pre initSt rfl hpre,
    block_standalone_main p r initSt rfl hne hall hinc hm,
    foldl_outside p post
      { initSt with
        state := State.Outside,
        cppText := textOf r,
        fileNum := initSt.fileNum + 1,
        files := initSt.files ++
          [(exampleFileName (initSt.fileNum + 1),
            "// Example from: " ++ p ++ "\n" ++ textOf r)] } rfl hpost]
  simp [output_common_cpp, initSt, exampleFileName]
  decide

/-- Witness for C2 at a concrete document. -/
theorem standalone_with_main_single_file_w :
    runExtract [("doc.md", (["intro"] : List String)
        ++ ("```cpp" :: ((["#include <upa/url.h>", "int main() \x7b\x7d"]
              : List String) ++ ["```"])) ++ (["tail"] : List String))]
      = [("example-1.cpp", "// Example from: " ++ "doc.md" ++ "\n"
            ++ textOf ["#include <upa/url.h>", "int main() \x7b\x7d"])] :=
  standalone_with_main_single_file "doc.md" ["intro"]
    ["#include <upa/url.h>", "int main() \x7b\x7d"] ["tail"]
    (by decide) (by decide) (by decide) (by decide) (by decide) (by decide)

/-- Claim C3: a document holding exactly two fenced cpp regions, both
classified Fragment, yields no per-region files; the single aggregate file
examples.cpp holds exactly two generated functions example_1 and example_2
in document order, each region's lines indented one unit, plus a generated
main that calls example_1 then example_2 and returns 0. -/
theorem two_fragments_aggregate (p : String) (pre mid post r1 r2 : List String)
    (hpre : ∀ l ∈ pre, rstrip l ≠ "```cpp")
    (hmid : ∀ l ∈ mid, rstrip l ≠ "```cpp")
    (hpost : ∀ l ∈ post, rstrip l ≠ "```cpp")
    (h1ne : r1 ≠ []) (h1all : ∀ l ∈ r1, rstrip l ≠ "```")
    (h1inc : startswith (rstrip r1.headI) "#include" = false)
    (h2ne : r2 ≠ []) (h2all : ∀ l ∈ r2, rstrip l ≠ "```")
    (h2inc : startswith (rstrip r2.headI) "#include" = false) :
    runExtract [(p, pre ++ ("```cpp" :: (r1 ++ ["```"])) ++ mid
        ++ ("```cpp" :: (r2 ++ ["```"])) ++ post)]
      = [("examples.cpp",
          COMMON_CPP_HEADER
            ++ ("\n// Example from: " ++ p ++ "\nvoid example_1() \x7b\n"
                  ++ fragText r1 ++ "\x7d\n")
            ++ ("\n// Example from: " ++ p ++ "\nvoid example_2() \x7b\n"
                  ++ fragText r2 ++ "\x7d\n")
            ++ ("\nint main() \x7b\n    example_1();\n    example_2();\n"
                  ++ "    return 0;\n\x7d\n"))] := by
  unfold runExtract finalSt
  simp only [List.foldl_cons, List.foldl_nil]
  show output_common_cpp (List.foldl (step p) initSt
      (pre ++ ("```cpp" :: (r1 ++ ["```"])) ++ mid
        ++ ("```cpp" :: (r2 ++ ["```"])) ++ post)) = _
  rw [List.foldl_append, List.foldl_append, List.foldl_append,
    List.foldl_append,
    foldl_outside p pre initSt rfl hpre,
    block_fragment p r1 initSt rfl h1ne h1all h1inc,
    foldl_outside p mid
      { initSt with
        state := State.Outside,
        cppText := fragText r1,
        exampleNum := initSt.exampleNum + 1,
        examplesText := initSt.examplesText ++
          fragBlock p (initSt.exampleNum + 1) (fragText r1) } rfl hmid,
    block_fragment p r2 _ rfl h2ne h2all h2inc,
    foldl_outside p post
      { initSt with
        state := State.Outside,
        cppText := fragText r2,
        exampleNum := initSt.exampleNum + 1 + 1,
        examplesText := (initSt.examplesText ++
            fragBlock p (initSt.exampleNum + 1) (fragText r1)) ++
          fragBlock p (initSt.exampleNum + 1 + 1) (fragText r2) } rfl hpost]
  simp only [output_common_cpp, initSt]
  norm_num
  rw [fragBlock_one, fragBlock_two, mainBlock_two]

/-- Witness for C3 at a concrete document. -/
theorem two_fragments_aggregate_w :
    runExtract [("doc.md", (["a"] : List String)
        ++ ("```cpp" :: ((["url u;"] : List String) ++ ["```"]))
        ++ (["b"] : List String)
        ++ ("```cpp" :: ((["other;"] : List String) ++ ["```"]))
        ++ (["c"] : List String))]
      = [("examples.cpp",
          COMMON_CPP_HEADER
            ++ ("\n// Example from: " ++ "doc.md"
                  ++ "\nvoid example_1() \x7b\n"
                  ++ fragText ["url u;"] ++ "\x7d\n")
            ++ ("\n// Example from: " ++ "doc.md"
                  ++ "\nvoid example_2() \x7b\n"
                  ++ fragText ["other;"] ++ "\x7d\n")
            ++ ("\nint main() \x7b\n    example_1();\n    example_2();\n"
                  ++ "    return 0;\n\x7d\n"))] :=
  two_fragments_aggregate "doc.md" ["a"] ["b"] ["c"] ["url u;"] ["other;"]
    (by decide) (by decide) (by decide) (by decide) (by decide) (by decide)
    (by decide) (by decide) (by decide)

/-! Helpers for the run-level invariants. -/

theorem catMap_append (f : α → String) (l1 l2 : List α) :
    catMap f (l1 ++ l2) = catMap f l1 ++ catMap f l2 := by
  induction l1 with
  | nil => simp [catMap]
  | cons a t ih => simp [catMap, ih, String.append_assoc]

theorem catMap_congr (f g : α → String) (l : List α)
    (h : ∀ a ∈ l, f a = g a) : catMap f l = catMap g l := by
  induction l with
  | nil => rfl
  | cons a t ih =>
      simp only [catMap, h a (by simp),
        ih (fun b hb => h b (by simp [hb]))]

theorem exampleFileName_ne (n : Nat) : exampleFileName n ≠ "examples.cpp" := by
  intro h
  have hd := congrArg String.data h
  simp only [exampleFileName, String.data_append] at hd
  simp at hd

theorem step_names (p : String) (c : ScanSt) (raw : String)
    (h : c.files.map Prod.fst
      = (List.range c.fileNum).map (fun i => exampleFileName (i + 1))) :
    (step p c raw).files.map Prod.fst
      = (List.range (step p c raw).fileNum).map
          (fun i => exampleFileName (i + 1)) := by
  obtain ⟨st, t, fn, en, et, fs⟩ := c
  cases st <;> simp only [step] <;> split_ifs <;>
    simp_all [List.range_succ]

theorem foldl_names (p : String) (ls : List String) :
    ∀ c : ScanSt,
      c.files.map Prod.fst
        = (List.range c.fileNum).map (fun i => exampleFileName (i + 1)) →
      (ls.foldl (step p) c).files.map Prod.fst
        = (List.range (ls.foldl (step p) c).fileNum).map
            (fun i => exampleFileName (i + 1)) := by
  induction ls with
  | nil => intro c h; exact h
  | cons a t ih =>
      intro c h
      rw [List.foldl_cons]
      exact ih _ (step_names p c a h)

theorem finalSt_names (docs : List (String × List String)) :
    (finalSt docs).files.map Prod.fst
      = (List.range (finalSt docs).fileNum).map
          (fun i => exampleFileName (i + 1)) := by
  unfold finalSt
  have key : ∀ (ds : List (String × List String)) (c : ScanSt),
      c.files.map Prod.fst
        = (List.range c.fileNum).map (fun i => exampleFileName (i + 1)) →
      (ds.foldl (fun c d => extract_cpp_from_md_file c d.1 d.2) c).files.map
          Prod.fst
        = (List.range
            (ds.foldl (fun c d => extract_cpp_from_md_file c d.1 d.2)
              c).fileNum).map (fun i => exampleFileName (i + 1)) := by
    intro ds
    induction ds with
    | nil => intro c h; exact h
    | cons d t ih =>
        intro c h
        rw [List.foldl_cons]
        refine ih _ ?_
        unfold extract_cpp_from_md_file
        exact foldl_names d.1 d.2 _ h
  exact key docs initSt rfl

theorem step_frags (p : String) (c : ScanSt) (raw : String)
    (h : fragsOk c) : fragsOk (step p c raw) := by
  obtain ⟨st, t, fn, en, et, fs⟩ := c
  obtain ⟨g, hg⟩ := h
  have hg2 : et
      = COMMON_CPP_HEADER
        ++ catMap (fun i => fragBlock (g i).1 (i + 1) (g i).2)
            (List.range en) := hg
  cases st with
  | Outside => simp only [step]; split_ifs <;> exact ⟨g, hg2⟩
  | EnterCpp => simp only [step]; split_ifs <;> exact ⟨g, hg2⟩
  | InCpp => simp only [step]; split_ifs <;> exact ⟨g, hg2⟩
  | InCppSnipet =>
      simp only [step]
      split_ifs with hcl
      · refine ⟨fun j => if j = en then (p, t) else g j, ?_⟩
        show et ++ fragBlock p (en + 1) t
            = COMMON_CPP_HEADER
              ++ catMap (fun i => fragBlock
                  ((fun j => if j = en then (p, t) else g j) i).1 (i + 1)
                  ((fun j => if j = en then (p, t) else g j) i).2)
                (List.range (en + 1))
        rw [hg2, List.range_succ, catMap_append,
          catMap_congr
            (fun i => fragBlock
              ((fun j => if j = en then (p, t) else g j) i).1 (i + 1)
              ((fun j => if j = en then (p, t) else g j) i).2)
            (fun i => fragBlock (g i).1 (i + 1) (g i).2)
            (List.range en)
            (fun a ha => by
              have hne : a ≠ en := Nat.ne_of_lt (List.mem_range.mp ha)
              simp [hne])]
        simp [catMap, String.append_assoc]
      · exact ⟨g, hg2⟩

theorem foldl_frags (p : String) (ls : List String) :
    ∀ c : ScanSt, fragsOk c → fragsOk (ls.foldl (step p) c) := by
  induction ls with
  | nil => intro c h; exact h
  | cons a t ih =>
      intro c h
      rw [List.foldl_cons]
      exact ih _ (step_frags p c a h)

theorem finalSt_frags (docs : List (String × List String)) :
    fragsOk (finalSt docs) := by
  unfold finalSt
  have key : ∀ (ds : List (String × List String)) (c : ScanSt), fragsOk c →
      fragsOk (ds.foldl (fun c d => extract_cpp_from_md_file c d.1 d.2) c) := by
    intro ds
    induction ds with
    | nil => intro c h; exact h
    | cons d t ih =>
        intro c h
        rw [List.foldl_cons]
        refine ih _ ?_
        unfold extract_cpp_from_md_file
        exact foldl_frags d.1 d.2 _ h
  refine key docs initSt ⟨fun _ => ("", ""), ?_⟩
  simp [initSt, catMap]

theorem step_counters (p : String) (c : ScanSt) (raw : String) :
    ((step p c raw).fileNum = c.fileNum
        ∧ (step p c raw).exampleNum = c.exampleNum)
    ∨ ((step p c raw).fileNum = c.fileNum + 1
        ∧ (step p c raw).exampleNum = c.exampleNum)
    ∨ ((step p c raw).fileNum = c.fileNum
        ∧ (step p c raw).exampleNum = c.exampleNum + 1) := by
  obtain ⟨st, t, fn, en, et, fs⟩ := c
  cases st <;> simp only [step] <;> split_ifs <;> simp

theorem no_fence_doc (p : String) (ls : List String) (c : ScanSt)
    (h : ∀ l ∈ ls, rstrip l ≠ "```cpp") :
    extract_cpp_from_md_file c p ls
      = { c with state := State.Outside, cppText := "" } := by
  unfold extract_cpp_from_md_file
  exact foldl_outside p ls _ rfl h

theorem no_fence_docs (docs : List (String × List String))
    (hall : ∀ d ∈ docs, ∀ l ∈ d.2, rstrip l ≠ "```cpp") :
    finalSt docs = initSt := by
  unfold finalSt
  have key : ∀ (ds : List (String × List String)) (c : ScanSt),
      c.state = State.Outside → c.cppText = "" →
      (∀ d ∈ ds, ∀ l ∈ d.2, rstrip l ≠ "```cpp") →
      ds.foldl (fun c d => extract_cpp_from_md_file c d.1 d.2) c = c := by
    intro ds
    induction ds with
    | nil => intro c _ _ _; rfl
    | cons d t ih =>
        intro c hst htxt hds
        rw [List.foldl_cons, no_fence_doc d.1 d.2 c (hds d (by simp))]
        have hrec : { c with state := State.Outside, cppText := "" } = c := by
          obtain ⟨st, tx, fn, en, et, fs⟩ := c
          simp_all
        rw [hrec]
        exact ih c hst htxt (fun d hd => hds d (by simp [hd]))
  exact key docs initSt rfl rfl hall

/-- Claim C5: across a whole run, the aggregate file examples.cpp is
written if and only if at least one fragment was recorded, and a run over
documents with no fenced cpp region at all creates no output file of any
kind. -/
theorem aggregate_iff_fragment_recorded (docs : List (String × List String)) :
    ("examples.cpp" ∈ (runExtract docs).map Prod.fst
      ↔ 0 < (finalSt docs).exampleNum)
    ∧ ((∀ d ∈ docs, ∀ l ∈ d.2, rstrip l ≠ "```cpp") → runExtract docs = []) := by
  constructor
  · unfold runExtract output_common_cpp
    by_cases h : 0 < (finalSt docs).exampleNum
    · simp [h]
    · rw [if_neg h]
      simp only [h, iff_false]
      intro hmem
      rw [finalSt_names docs] at hmem
      simp only [List.map_map, List.mem_map, List.mem_range] at hmem
      obtain ⟨i, _, hi⟩ := hmem
      exact exampleFileName_ne (i + 1) hi
  · intro hnof
    unfold runExtract
    rw [no_fence_docs docs hnof]
    rfl

/-- Witness for C5 at a concrete fence-free run. -/
theorem aggregate_iff_fragment_recorded_w :
    ("examples.cpp" ∈ (runExtract [("a.md", ["hello"])]).map Prod.fst
      ↔ 0 < (finalSt [("a.md", ["hello"])]).exampleNum)
    ∧ runExtract [("a.md", ["hello"])] = [] :=
  ⟨(aggregate_iff_fragment_recorded [("a.md", ["hello"])]).1,
   (aggregate_iff_fragment_recorded [("a.md", ["hello"])]).2 (by decide)⟩

/-- Claim C6: the standalone-file counter and the fragment counter are two
independent counters: both start at 0 so the first allocation of each is 1,
every step moves at most one of them and only by 1, the standalone files
written across any whole run are named example-1.cpp ... example-N.cpp in
order with N the final file counter (global over all documents, never
reused), and the aggregate buffer always holds fragment blocks numbered
1 ... M with M the final fragment counter. -/
theorem counters_independent_monotonic :
    (initSt.fileNum = 0 ∧ initSt.exampleNum = 0)
    ∧ (∀ (p : String) (c : ScanSt) (raw : String),
        ((step p c raw).fileNum = c.fileNum
            ∧ (step p c raw).exampleNum = c.exampleNum)
        ∨ ((step p c raw).fileNum = c.fileNum + 1
            ∧ (step p c raw).exampleNum = c.exampleNum)
        ∨ ((step p c raw).fileNum = c.fileNum
            ∧ (step p c raw).exampleNum = c.exampleNum + 1))
    ∧ (∀ docs : List (String × List String),
        (finalSt docs).files.map Prod.fst
          = (List.range (finalSt docs).fileNum).map
              (fun i => exampleFileName (i + 1)))
    ∧ (∀ docs : List (String × List String), fragsOk (finalSt docs)) :=
  ⟨⟨rfl, rfl⟩, step_counters, finalSt_names, finalSt_frags⟩

end ExtractCpp

namespace DocsVersions

/-! Properties of the stable insertion sort. -/

theorem mem_insertAsc (key : String → ℚ) (x z : String) (l : List String) :
    z ∈ insertAsc key x l ↔ z = x ∨ z ∈ l := by
  induction l with
  | nil => simp [insertAsc]
  | cons y ys ih =>
      unfold insertAsc
      split_ifs with h
      · simp only [List.mem_cons, ih]
        tauto
      · simp only [List.mem_cons]

theorem pairwise_insertAsc (key : String → ℚ) (x : String) (l : List String)
    (h : List.Pairwise (fun a b => key a ≤ key b) l) :
    List.Pairwise (fun a b => key a ≤ key b) (insertAsc key x l) := by
  induction l with
  | nil => simp [insertAsc]
  | cons y ys ih =>
      rcases h with _ | ⟨hy, hys⟩
      unfold insertAsc
      split_ifs with hle
      · refine List.Pairwise.cons ?_ (ih hys)
        intro z hz
        rcases (mem_insertAsc key x z ys).mp hz with rfl | hzys
        · exact hle
        · exact hy z hzys
      · refine List.Pairwise.cons ?_ (List.Pairwise.cons hy hys)
        intro z hz
        rcases List.mem_cons.mp hz with rfl | hzys
        · exact le_of_not_le hle
        · exact le_trans (le_of_not_le hle) (hy z hzys)

theorem pairwise_sortByKey (key : String → ℚ) (l : List String) :
    List.Pairwise (fun a b => key a ≤ key b) (sortByKey key l) := by
  have gen : ∀ (t acc : List String),
      List.Pairwise (fun a b => key a ≤ key b) acc →
      List.Pairwise (fun a b => key a ≤ key b)
        (t.foldl (fun acc x => insertAsc key x acc) acc) := by
    intro t
    induction t with
    | nil => intro acc h; exact h
    | cons a t ih =>
        intro acc h
        rw [List.foldl_cons]
        exact ih _ (pairwise_insertAsc key a acc h)
  exact gen l [] (by simp)

theorem mem_sortByKey (key : String → ℚ) (l : List String) (z : String) :
    z ∈ sortByKey key l ↔ z ∈ l := by
  have gen : ∀ (t acc : List String),
      (z ∈ t.foldl (fun acc x => insertAsc key x acc) acc
        ↔ z ∈ acc ∨ z ∈ t) := by
    intro t
    induction t with
    | nil => intro acc; simp
    | cons a t ih =>
        intro acc
        rw [List.foldl_cons, ih, mem_insertAsc]
        simp only [List.mem_cons]
        tauto
  simpa using gen l []

theorem insertAsc_of_le (key : String → ℚ) (x : String) (l : List String)
    (h : ∀ y ∈ l, key y ≤ key x) : insertAsc key x l = l ++ [x] := by
  induction l with
  | nil => rfl
  | cons y ys ih =>
      unfold insertAsc
      rw [if_pos (h y (by simp)), ih (fun z hz => h z (by simp [hz]))]
      rfl

theorem sortByKey_of_sorted (key : String → ℚ) (l : List String)
    (h : List.Pairwise (fun a b => key a ≤ key b) l) :
    sortByKey key l = l := by
  induction l using List.reverseRecOn with
  | nil => rfl
  | append_singleton l x ih =>
      rw [List.pairwise_append] at h
      obtain ⟨h1, _, h3⟩ := h
      show (l ++ [x]).foldl (fun acc x => insertAsc key x acc) [] = l ++ [x]
      rw [List.foldl_append, List.foldl_cons, List.foldl_nil]
      have hl : l.foldl (fun acc x => insertAsc key x acc) [] = l := ih h1
      rw [hl]
      exact insertAsc_of_le key x l (fun y hy => h3 y hy x (by simp))

theorem filter_insertAsc_neg (key : String → ℚ) (x : String)
    (l : List String) (P : String → Bool) (hx : P x = false) :
    (insertAsc key x l).filter P = l.filter P := by
  induction l with
  | nil => simp [insertAsc, hx]
  | cons y ys ih =>
      unfold insertAsc
      split_ifs with h
      · cases hy : P y <;> simp [List.filter_cons, hy, ih]
      · simp [List.filter_cons, hx]

theorem filter_insertAsc_pos (key : String → ℚ) (x : String)
    (l : List String) (P : String → Bool)
    (hx : P x = true) (hl : ∀ y, P y = true → key y = key x)
    (hpw : List.Pairwise (fun a b => key a ≤ key b) l) :
    (insertAsc key x l).filter P = l.filter P ++ [x] := by
  induction l with
  | nil => simp [insertAsc, hx]
  | cons y ys ih =>
      rcases hpw with _ | ⟨hy, hys⟩
      unfold insertAsc
      split_ifs with hle
      · cases hpy : P y <;> simp [List.filter_cons, hpy, ih hys]
      · have hkxy : key x < key y := lt_of_not_le hle
        have hnone : (y :: ys).filter P = [] := by
          rw [List.filter_eq_nil_iff]
          intro z hz hpz
          have hz1 : key z = key x := hl z (by simpa using hpz)
          have hz2 : key y ≤ key z := by
            rcases List.mem_cons.mp hz with rfl | hzys
            · exact le_refl _
            · exact hy z hzys
          exact absurd (hz1 ▸ hz2) (not_le.mpr hkxy)
        simp [List.filter_cons, hx, hnone]

theorem filter_sortByKey (key : String → ℚ) (P : String → Bool)
    (kx : String) (hP : ∀ y, P y = true → key y = key kx) (l : List String) :
    (sortByKey key l).filter P = l.filter P := by
  induction l using List.reverseRecOn with
  | nil => rfl
  | append_singleton l x ih =>
      show ((l ++ [x]).foldl (fun acc x => insertAsc key x acc) []).filter P
          = (l ++ [x]).filter P
      rw [List.foldl_append, List.foldl_cons, List.foldl_nil]
      have hpw : List.Pairwise (fun a b => key a ≤ key b)
          (l.foldl (fun acc x => insertAsc key x acc) []) := by
        have := pairwise_sortByKey key l
        unfold sortByKey at this
        exact this
      have ihl : (l.foldl (fun acc x => insertAsc key x acc) []).filter P
          = l.filter P := by
        have := ih
        unfold sortByKey at this
        exact this
      cases hx : P x
      · rw [filter_insertAsc_neg key x _ P hx, ihl]
        simp [List.filter_append, hx]
      · have hPx : ∀ y, P y = true → key y = key x := by
          intro y hy
          rw [hP y hy, hP x hx]
        rw [filter_insertAsc_pos key x _ P hx hPx hpw, ihl]
        simp [List.filter_append, hx]

end DocsVersions

namespace DocsVersions

/-! The replace-or-append loop and the first matching entry. -/

theorem replaceOrAppend_filter_head (dir dv : String) (l : List String)
    (hdv : dirPart dv = dir) :
    ((replaceOrAppend dir dv l).filter (matchesDir dir)).head? = some dv := by
  induction l with
  | nil => simp [replaceOrAppend, matchesDir, hdv]
  | cons x ls ih =>
      unfold replaceOrAppend
      split_ifs with hx
      · simp [List.filter_cons, matchesDir, hdv]
      · simp [List.filter_cons, matchesDir, hx, ih]

theorem replaceOrAppend_id (dir dv : String) (l : List String)
    (h : (l.filter (matchesDir dir)).head? = some dv) :
    replaceOrAppend dir dv l = l := by
  induction l with
  | nil => simp at h
  | cons x ls ih =>
      unfold replaceOrAppend
      split_ifs with hx
      · have : matchesDir dir x = true := by simp [matchesDir, hx]
        rw [List.filter_cons_of_pos this] at h
        simp only [List.head?_cons, Option.some.injEq] at h
        rw [h]
      · have : matchesDir dir x = false := by simp [matchesDir, hx]
        rw [List.filter_cons_of_neg (by simp [this])] at h
        rw [ih h]

/-! Key facts. -/

theorem keyD_congr (a b : String) (h : dirPart a = dirPart b) :
    keyD a = keyD b := by
  unfold keyD key_of_dir_ver
  rw [h]

theorem keyD_main (s : String) (h : dirPart s = "main") : keyD s = 0 := by
  unfold keyD key_of_dir_ver
  simp [h]

theorem keyD_eq (s : String) (t : Int × Int × Int)
    (hm : dirPart s ≠ "main") (ht : tripOfLine s = some t)
    (hd : divOf t ≠ 0) : keyD s = 1 / ((divOf t : Int) : ℚ) := by
  unfold tripOfLine at ht
  unfold keyD key_of_dir_ver
  rw [if_neg hm, ht]
  simp [hd]

theorem keyD_pos (s : String) (t : Int × Int × Int)
    (hm : dirPart s ≠ "main") (ht : tripOfLine s = some t)
    (hd : 0 < divOf t) : 0 < keyD s := by
  rw [keyD_eq s t hm ht (ne_of_gt hd)]
  have : (0 : ℚ) < ((divOf t : Int) : ℚ) := by exact_mod_cast hd
  exact one_div_pos.mpr this

theorem key_isSome_cases (s : String)
    (h : (key_of_dir_ver s).isSome) (hm : dirPart s ≠ "main") :
    ∃ t, tripOfLine s = some t ∧ divOf t ≠ 0 := by
  unfold key_of_dir_ver at h
  rw [if_neg hm] at h
  unfold tripOfLine
  cases ht : trip_of_dir (dirPart s) with
  | none => rw [ht] at h; simp at h
  | some t =>
      rw [ht] at h
      by_cases hd : divOf t = 0
      · simp [hd] at h
      · exact ⟨t, rfl, hd⟩

/-! Shape of a successful update_ver run. -/

theorem update_ver_eq (dir ver : String) (lines out : List String)
    (h : update_ver dir ver lines = some out) :
    out = sortByKey keyD
        (replaceOrAppend dir (if dir = ver then dir else dir ++ ":" ++ ver)
          lines)
    ∧ ∀ l ∈ replaceOrAppend dir
        (if dir = ver then dir else dir ++ ":" ++ ver) lines,
        (key_of_dir_ver l).isSome := by
  have h2 : (if (replaceOrAppend dir
        (if dir = ver then dir else dir ++ ":" ++ ver) lines).all
          (fun l => (key_of_dir_ver l).isSome)
      then some (sortByKey keyD (replaceOrAppend dir
        (if dir = ver then dir else dir ++ ":" ++ ver) lines))
      else none) = some out := h
  by_cases hall : (replaceOrAppend dir
      (if dir = ver then dir else dir ++ ":" ++ ver) lines).all
        (fun l => (key_of_dir_ver l).isSome) = true
  · rw [if_pos hall] at h2
    injection h2 with h3
    subst h3
    refine ⟨rfl, ?_⟩
    intro l hl
    rw [List.all_eq_true] at hall
    simpa using hall l hl
  · rw [if_neg hall] at h2
    exact absurd h2 (by simp)

/-! dirPart computations. -/

theorem takeWhile_all {p : Char → Bool} (l : List Char)
    (h : ∀ c ∈ l, p c = true) : l.takeWhile p = l := by
  induction l with
  | nil => rfl
  | cons c cs ih =>
      simp only [List.takeWhile_cons, h c (by simp), if_true]
      rw [ih (fun d hd => h d (by simp [hd]))]

theorem takeWhile_append_all {p : Char → Bool} (l1 l2 : List Char)
    (h : ∀ c ∈ l1, p c = true) :
    (l1 ++ l2).takeWhile p = l1 ++ l2.takeWhile p := by
  induction l1 with
  | nil => rfl
  | cons c cs ih =>
      rw [List.cons_append]
      simp only [List.takeWhile_cons, h c (by simp), if_true]
      rw [ih (fun d hd => h d (by simp [hd]))]
      simp

theorem dirPart_self (dir : String) (h : ∀ ch ∈ dir.data, ch ≠ ':') :
    dirPart dir = dir := by
  unfold dirPart
  rw [takeWhile_all dir.data (fun c hc => by simp [h c hc])]

theorem dirPart_append_colon (dir ver : String)
    (h : ∀ ch ∈ dir.data, ch ≠ ':') :
    dirPart (dir ++ ":" ++ ver) = dir := by
  unfold dirPart
  have hd : (dir ++ ":" ++ ver).data = dir.data ++ (':' :: ver.data) := by
    simp [String.data_append]
  rw [hd, takeWhile_append_all dir.data (':' :: ver.data)
    (fun c hc => by simp [h c hc])]
  show String.mk (dir.data ++ List.takeWhile _ (':' :: ver.data)) = dir
  rw [show List.takeWhile (fun c => c != ':') (':' :: ver.data) = []
    from rfl]
  rw [List.append_nil]

end DocsVersions

namespace DocsVersions

theorem divOf_lt_of_lexLt (a b : Int × Int × Int)
    (ha : goodTrip a) (hb : goodTrip b) (h : lexLt a b) :
    divOf a < divOf b := by
  obtain ⟨a1, a2, a3⟩ := a
  obtain ⟨b1, b2, b3⟩ := b
  unfold goodTrip divOf at ha hb
  unfold lexLt at h
  unfold divOf
  simp only at ha hb h ⊢
  omega

/-- Claim C8 counterexample: after update_ver "v2.0" "v2.0.0" on a file
holding "v1.1000", the strictly larger version v2.0.0 sorts after the
smaller v1.1000.0 — the weighted keys collide (both 1/2000000) because the
minor component 1000 reaches the major weight, so descending version order
is not restored by the reciprocal key. -/
theorem update_ver_sort_cex :
    update_ver "v2.0" "v2.0.0" ["v1.1000"]
      = some ["v1.1000", "v2.0:v2.0.0"]
    ∧ tripOfLine "v1.1000" = some (1, 1000, 0)
    ∧ tripOfLine "v2.0:v2.0.0" = some (2, 0, 0)
    ∧ lexLt (1, 1000, 0) (2, 0, 0) := by
  refine ⟨?_, by decide, by decide, by decide⟩
  have k1 : keyD "v1.1000" = 1 / ((2000000 : Int) : ℚ) := rfl
  have k2 : keyD "v2.0:v2.0.0" = 1 / ((2000000 : Int) : ℚ) := rfl
  have hcmp : keyD "v1.1000" ≤ keyD "v2.0:v2.0.0" := by rw [k1, k2]
  have hsort : sortByKey keyD ["v1.1000", "v2.0:v2.0.0"]
      = ["v1.1000", "v2.0:v2.0.0"] := by
    show insertAsc keyD "v2.0:v2.0.0"
        (insertAsc keyD "v1.1000" []) = _
    rw [show insertAsc keyD "v1.1000" ([] : List String) = ["v1.1000"]
      from rfl]
    unfold insertAsc
    rw [if_pos hcmp]
    rfl
  have hrep : replaceOrAppend "v2.0" "v2.0:v2.0.0" ["v1.1000"]
      = ["v1.1000", "v2.0:v2.0.0"] := by decide
  have hall : (["v1.1000", "v2.0:v2.0.0"] : List String).all
      (fun l => (key_of_dir_ver l).isSome) = true := by decide
  show (if (replaceOrAppend "v2.0" "v2.0:v2.0.0" ["v1.1000"]).all
        (fun l => (key_of_dir_ver l).isSome)
      then some (sortByKey keyD
        (replaceOrAppend "v2.0" "v2.0:v2.0.0" ["v1.1000"]))
      else none) = some ["v1.1000", "v2.0:v2.0.0"]
  rw [hrep, if_pos hall, hsort]

/-- Claim C8 amended: after every run of update_ver that completes (the
sort key raises no exception), the written lines are sorted ascending by
key_of_dir_ver; when every entry is "main" or has positive weighted sum,
the "main" entries sort first; and among released entries with canonical
components (nonnegative, minor and patch below 1000, positive weighted
sum) a strictly larger major.minor.patch version never sorts later than a
smaller one is false as stated — amended: never sorts strictly after,
i.e. for positions i < j the entry at j is never lexicographically larger
than the entry at i. -/
theorem update_ver_sorted (dir ver : String) (lines out : List String)
    (h : update_ver dir ver lines = some out) :
    List.Pairwise (fun a b => keyD a ≤ keyD b) out
    ∧ ((∀ l ∈ out, dirPart l = "main" ∨ 0 < divD l) →
        ∀ i j (hi : i < out.length) (hj : j < out.length), i < j →
          dirPart (out.get ⟨j, hj⟩) = "main" →
          dirPart (out.get ⟨i, hi⟩) = "main")
    ∧ (∀ i j (hi : i < out.length) (hj : j < out.length), i < j →
        ∀ ti tj, dirPart (out.get ⟨i, hi⟩) ≠ "main" →
          dirPart (out.get ⟨j, hj⟩) ≠ "main" →
          tripOfLine (out.get ⟨i, hi⟩) = some ti →
          tripOfLine (out.get ⟨j, hj⟩) = some tj →
          goodTrip ti → goodTrip tj → ¬ lexLt ti tj) := by
  obtain ⟨hout, hkeys⟩ := update_ver_eq dir ver lines out h
  have hmem : ∀ l ∈ out, (key_of_dir_ver l).isSome := by
    intro l hl
    rw [hout, mem_sortByKey] at hl
    exact hkeys l hl
  have hpw : List.Pairwise (fun a b => keyD a ≤ keyD b) out := by
    rw [hout]
    exact pairwise_sortByKey keyD _
  have hgetle : ∀ i j (hi : i < out.length) (hj : j < out.length), i < j →
      keyD (out.get ⟨i, hi⟩) ≤ keyD (out.get ⟨j, hj⟩) := by
    intro i j hi hj hij
    have := List.pairwise_iff_getElem.mp hpw i j hi hj hij
    simpa [List.get_eq_getElem] using this
  refine ⟨hpw, ?_, ?_⟩
  · intro hwf i j hi hj hij hjm
    by_contra him
    rcases hwf _ (List.get_mem out i hi) with hmain | hdiv
    · exact him hmain
    · have hsome := hmem _ (List.get_mem out i hi)
      obtain ⟨t, ht, _⟩ := key_isSome_cases _ hsome him
      have hdd : divD (out.get ⟨i, hi⟩) = divOf t := by
        unfold divD
        rw [ht]
        rfl
      have hpos : 0 < keyD (out.get ⟨i, hi⟩) :=
        keyD_pos _ t him ht (hdd ▸ hdiv)
      have hle := hgetle i j hi hj hij
      rw [keyD_main _ hjm] at hle
      exact absurd (lt_of_lt_of_le hpos hle) (lt_irrefl 0)
  · intro i j hi hj hij ti tj him hjm hti htj hgti hgtj hlex
    have hd : divOf ti < divOf tj := divOf_lt_of_lexLt ti tj hgti hgtj hlex
    have hdi : (0 : Int) < divOf ti := hgti.2.2.2.2.2
    have hki := keyD_eq _ ti him hti (ne_of_gt hdi)
    have hkj := keyD_eq _ tj hjm htj (ne_of_gt hgtj.2.2.2.2.2)
    have hle := hgetle i j hi hj hij
    rw [hki, hkj] at hle
    have hlt : (1 : ℚ) / ((divOf tj : Int) : ℚ)
        < 1 / ((divOf ti : Int) : ℚ) := by
      apply one_div_lt_one_div_of_lt
      · exact_mod_cast hdi
      · exact_mod_cast hd
    exact absurd hle (not_le.mpr hlt)

/-- Witness for the amended C8 at a concrete successful run. -/
theorem update_ver_sorted_w :
    List.Pairwise (fun a b => keyD a ≤ keyD b) ["v1.0:v1.0.0"]
    ∧ ((∀ l ∈ ["v1.0:v1.0.0"], dirPart l = "main" ∨ 0 < divD l) →
        ∀ i j (hi : i < (["v1.0:v1.0.0"] : List String).length)
          (hj : j < (["v1.0:v1.0.0"] : List String).length), i < j →
          dirPart ((["v1.0:v1.0.0"] : List String).get ⟨j, hj⟩) = "main" →
          dirPart ((["v1.0:v1.0.0"] : List String).get ⟨i, hi⟩) = "main")
    ∧ (∀ i j (hi : i < (["v1.0:v1.0.0"] : List String).length)
        (hj : j < (["v1.0:v1.0.0"] : List String).length), i < j →
        ∀ ti tj,
          dirPart ((["v1.0:v1.0.0"] : List String).get ⟨i, hi⟩) ≠ "main" →
          dirPart ((["v1.0:v1.0.0"] : List String).get ⟨j, hj⟩) ≠ "main" →
          tripOfLine ((["v1.0:v1.0.0"] : List String).get ⟨i, hi⟩)
            = some ti →
          tripOfLine ((["v1.0:v1.0.0"] : List String).get ⟨j, hj⟩)
            = some tj →
          goodTrip ti → goodTrip tj → ¬ lexLt ti tj) :=
  update_ver_sorted "v1.0" "v1.0.0" [] ["v1.0:v1.0.0"] (by decide)

/-- Claim C10 counterexample: with the directory key "v1:2" (which
contains the separator), both calls succeed, yet the second run appends a
duplicate entry instead of replacing, so the file content changes. -/
theorem update_ver_idem_cex :
    update_ver "v1:2" "v1:2" [] = some ["v1:2"]
    ∧ update_ver "v1:2" "v1:2" ["v1:2"] = some ["v1:2", "v1:2"]
    ∧ (["v1:2", "v1:2"] : List String) ≠ ["v1:2"] := by
  refine ⟨by decide, ?_, by decide⟩
  have hall : (["v1:2", "v1:2"] : List String).all
      (fun l => (key_of_dir_ver l).isSome) = true := by decide
  have h2 : sortByKey keyD ["v1:2", "v1:2"] = ["v1:2", "v1:2"] := by
    show insertAsc keyD "v1:2" (insertAsc keyD "v1:2" []) = _
    rw [show insertAsc keyD "v1:2" ([] : List String) = ["v1:2"] from rfl]
    unfold insertAsc
    rw [if_pos (le_refl (keyD "v1:2"))]
    rfl
  have hrep : replaceOrAppend "v1:2" "v1:2" ["v1:2"]
      = ["v1:2", "v1:2"] := by decide
  show (if (replaceOrAppend "v1:2" "v1:2" ["v1:2"]).all
        (fun l => (key_of_dir_ver l).isSome)
      then some (sortByKey keyD (replaceOrAppend "v1:2" "v1:2" ["v1:2"]))
      else none) = some ["v1:2", "v1:2"]
  rw [hrep, if_pos hall, h2]

/-- Claim C10 amended: update_ver is idempotent whenever the directory key
contains no colon separator: if a run on some initial lines succeeds and
writes out, a second run with the same dir and ver succeeds and writes out
unchanged. -/
theorem update_ver_idem (dir ver : String) (lines out : List String)
    (hdir : ∀ ch ∈ dir.data, ch ≠ ':')
    (h : update_ver dir ver lines = some out) :
    update_ver dir ver out = some out := by
  obtain ⟨hout, hkeys⟩ := update_ver_eq dir ver lines out h
  have hdvp : dirPart (if dir = ver then dir else dir ++ ":" ++ ver)
      = dir := by
    split_ifs with he
    · exact dirPart_self dir hdir
    · exact dirPart_append_colon dir ver hdir
  set dv := if dir = ver then dir else dir ++ ":" ++ ver with hdv
  have hfil : (out.filter (matchesDir dir)).head? = some dv := by
    rw [hout]
    rw [filter_sortByKey keyD (matchesDir dir) dv
      (fun y hy => keyD_congr y dv (by
        have hyd : dirPart y = dir := of_decide_eq_true hy
        rw [hyd, hdvp]))]
    exact replaceOrAppend_filter_head dir dv lines hdvp
  have hro : replaceOrAppend dir dv out = out :=
    replaceOrAppend_id dir dv out hfil
  have hpw : List.Pairwise (fun a b => keyD a ≤ keyD b) out := by
    rw [hout]
    exact pairwise_sortByKey keyD _
  have hsort : sortByKey keyD out = out := sortByKey_of_sorted keyD out hpw
  have hallout : out.all (fun l => (key_of_dir_ver l).isSome) = true := by
    rw [List.all_eq_true]
    intro l hl
    have hl2 : l ∈ out := hl
    rw [hout, mem_sortByKey] at hl2
    simpa using hkeys l hl2
  have goal2 : (if (replaceOrAppend dir dv out).all
        (fun l => (key_of_dir_ver l).isSome)
      then some (sortByKey keyD (replaceOrAppend dir dv out))
      else none) = some out := by
    rw [hro, if_pos hallout, hsort]
  exact goal2

/-- Witness for the amended C10: a colon-free dir, run twice. -/
theorem update_ver_idem_w :
    update_ver "v1.0" "v1.0.0" ["v1.0:v1.0.0"] = some ["v1.0:v1.0.0"] :=
  update_ver_idem "v1.0" "v1.0.0" [] ["v1.0:v1.0.0"] (by decide) (by decide)

end DocsVersions
